import Mathlib

/-!
Shallow embedding of the statistics-derivation logic of `src/pages/layer-2.tsx`
(the `Layer2Page` component): the two asynchronous fetch routines
`fetchL2Beat` and `fetchCryptoStats`, the three display-stat cells they write,
and the two product-card filter predicates.

JavaScript numbers are modelled as rationals, with the non-finite values
(`NaN`, `Infinity`, `-Infinity`) made explicit where division can produce
them.  `Intl.NumberFormat(...).format` is a platform service and is taken as
an abstract parameter; the options object passed to it is embedded as data.
Each fetch routine is embedded as a pure function from its (possibly failed)
HTTP response to the ordered list of state-setter calls it performs, plus
whether it logged an error and whether any exception escaped the `catch`.
-/

set_option autoImplicit false

namespace Layer2

/-- JavaScript number values reachable in this code: a finite value, `NaN`,
or a signed infinity. -/
inductive JsNum where
  | finite (q : ℚ)
  | nan
  | posInf
  | negInf
deriving DecidableEq, Repr

/-- JavaScript division of two finite numbers (`n / d`): division by zero
yields a signed infinity, and `0 / 0` yields `NaN`. -/
def jsDiv (n d : ℚ) : JsNum :=
  if d = 0 then
    if 0 < n then .posInf else if n < 0 then .negInf else .nan
  else .finite (n / d)

/-- JavaScript multiplication of a number by a finite constant. -/
def jsMulC (x : JsNum) (c : ℚ) : JsNum :=
  match x with
  | .finite q => .finite (q * c)
  | .nan => .nan
  | .posInf => if 0 < c then .posInf else if c < 0 then .negInf else .nan
  | .negInf => if 0 < c then .negInf else if c < 0 then .posInf else .nan

/-- JavaScript comparison `x > 0` (false on `NaN`). -/
def jsGtZero : JsNum → Bool
  | .finite q => decide (0 < q)
  | .nan => false
  | .posInf => true
  | .negInf => false

/-- Decimal digit characters of a natural number, accumulator style
(least-significant digit is peeled off first and consed in front). -/
def decDigitsAux : ℕ → List Char → List Char
  | 0, acc => acc
  | n + 1, acc => decDigitsAux ((n + 1) / 10) (Nat.digitChar ((n + 1) % 10) :: acc)
termination_by n _ => n
decreasing_by exact Nat.div_lt_self (Nat.succ_pos n) (by norm_num)

/-- Standard decimal rendering of a natural number (no sign, no grouping),
as produced for the integer part by `Number.prototype.toFixed`. -/
def decRepr (n : ℕ) : String :=
  if n = 0 then "0" else String.mk (decDigitsAux n [])

/-- The two fraction digits of `toFixed(2)`, for `f < 100`. -/
def twoFrac (f : ℕ) : String :=
  String.mk [Nat.digitChar (f / 10), Nat.digitChar (f % 10)]

/-- Scaled magnitude used by `toFixed(2)`: the integer nearest `|q| * 100`,
ties resolved to the larger integer (ECMA-262 `Number.prototype.toFixed`);
`Rat.floor` agrees with the mathematical floor by `Rat.floor_def'`. -/
def fix2 (q : ℚ) : ℕ :=
  (Rat.floor (|q| * 100 + 1 / 2)).toNat

/-- Embedding of `Number.prototype.toFixed(2)` on a finite value, per its
ECMA-262 specification: a minus sign for negative input, then the decimal
integer part, a point, and exactly two fraction digits. -/
def toFixed2 (q : ℚ) : String :=
  (if q < 0 then "-" else "") ++ decRepr (fix2 q / 100) ++ "." ++ twoFrac (fix2 q % 100)

/-- Embedding of `toFixed(2)` on a general JavaScript number. -/
def jsToFixed2 : JsNum → String
  | .finite q => toFixed2 q
  | .nan => "NaN"
  | .posInf => "Infinity"
  | .negInf => "-Infinity"

/-- Options object passed to `Intl.NumberFormat` (both stat boxes build the
same one). The `notation: "compact"` field is embedded as `notationStyle`. -/
structure NumberFormatOptions where
  style : String
  currency : String
  notationStyle : String
  minimumSignificantDigits : ℕ
  maximumSignificantDigits : ℕ
deriving DecidableEq, Repr

/-- The options used for all three stat boxes in the source:
currency USD, compact, 2 to 3 significant digits. -/
def statsBoxCurrencyOptions : NumberFormatOptions :=
  { style := "currency"
    currency := "USD"
    notationStyle := "compact"
    minimumSignificantDigits := 2
    maximumSignificantDigits := 3 }

/-- An abstract locale-aware number formatter standing for
`new Intl.NumberFormat(locale, options).format`; the platform
implementation is outside the embedded code. -/
def Fmt : Type := NumberFormatOptions → JsNum → String

/-- A concrete formatter instance used to evaluate the embedding on
closed inputs. -/
def sampleFormat : Fmt := fun _ n => jsToFixed2 n

/-- One point of the L2Beat daily time series: `[timestamp, number, number]`. -/
def Point : Type := String × ℚ × ℚ

/-- Element `[1]` of a time-series point (the value both stat computations
read). -/
def elem1 (p : Point) : ℚ := p.2.1

/-- Default tuple used only to express `array[i]` reads in specifications. -/
def ptDefault : Point := ("", 0, 0)

/-- JavaScript array read `d[i]` at a (possibly negative) integer index:
out-of-range reads yield `undefined`, embedded as `none`. -/
def getIdx (d : List Point) (i : ℤ) : Option Point :=
  if 0 ≤ i then d.get? i.toNat else none

/-- One entry of the cryptostats fee response, keeping the two fields the
code reads: `id` and `results.feeTransferEth`. -/
structure FeeEntry where
  id : String
  feeTransferEth : ℚ
deriving DecidableEq, Repr

/-- A call to one of the three `useState` setters. -/
inductive Write where
  | setTVL (s : String)
  | setL2PercentChange (s : String)
  | setAverageFee (s : String)
deriving DecidableEq, Repr

/-- The three display-stat cells. -/
inductive Cell where
  | tvl
  | percentChangeL2
  | averageFee
deriving DecidableEq, Repr

/-- The cell a setter call targets. -/
def Write.cell : Write → Cell
  | .setTVL _ => .tvl
  | .setL2PercentChange _ => .percentChangeL2
  | .setAverageFee _ => .averageFee

/-- The string a setter call writes. -/
def Write.value : Write → String
  | .setTVL s => s
  | .setL2PercentChange s => s
  | .setAverageFee s => s

/-- Runtime errors arising in the embedded code: a `TypeError` from reading
a property of `undefined`, or a rejected/malformed `getData` response. -/
inductive JsError where
  | typeError
  | fetchError
deriving DecidableEq, Repr

/-- The fixed error placeholder written by every `catch` block. -/
def errText : String := "Error, please refresh."

/-- The loading placeholder each cell starts at. -/
def loadingText : String := "loading..."

/-- The try-block of `fetchL2Beat` after the response arrived: formats the
TVL from the last point, then computes the 30-day percent change.  Returns
the setter calls performed before any throw, and the error thrown, if any.
Reading `[1]` of an out-of-range (`undefined`) element throws a
`TypeError`. -/
def l2TryBlock (fmt : Fmt) (dailyData : List Point) : List Write × Option JsError :=
  match getIdx dailyData ((dailyData.length : ℤ) - 1) with
  | none => ([], some .typeError)
  | some lastP =>
    let tvlStr := fmt statsBoxCurrencyOptions (.finite (elem1 lastP))
    match getIdx dailyData ((dailyData.length : ℤ) - 31) with
    | none => ([.setTVL tvlStr], some .typeError)
    | some priorP =>
      let percentage := jsMulC (jsDiv (elem1 lastP - elem1 priorP) (elem1 priorP)) 100
      let pcStr :=
        if jsGtZero percentage then "+" ++ jsToFixed2 percentage ++ "%"
        else jsToFixed2 percentage ++ "%"
      ([.setTVL tvlStr, .setL2PercentChange pcStr], none)

/-- The outcome of one async routine: the setter calls it performed in
order, whether it logged via `console.error`, and the exception escaping
past its `catch`, if any. -/
structure CycleResult where
  writes : List Write
  logged : Bool
  escaped : Option JsError
deriving DecidableEq, Repr

/-- Embedding of `fetchL2Beat`: on a rejected fetch, or on any throw inside
the try-block, the `catch` logs and sets both of its cells to the error
placeholder (after whatever setters already ran). -/
def fetchL2Beat (fmt : Fmt) (response : Except JsError (List Point)) : CycleResult :=
  match response with
  | .error _ => ⟨[.setTVL errText, .setL2PercentChange errText], true, none⟩
  | .ok dailyData =>
    match l2TryBlock fmt dailyData with
    | (ws, none) => ⟨ws, false, none⟩
    | (ws, some _) => ⟨ws ++ [.setTVL errText, .setL2PercentChange errText], true, none⟩

/-- The filtered fee list of `fetchCryptoStats`: entries whose `id` is the
excluded identifier `"hermez"` are dropped. -/
def feeDataOf (entries : List FeeEntry) : List FeeEntry :=
  entries.filter (fun l2 => l2.id != "hermez")

/-- The average fee of `fetchCryptoStats`: a `reduce` sum divided by the
filtered length, with JavaScript division semantics. -/
def feeAverageOf (entries : List FeeEntry) : JsNum :=
  jsDiv ((feeDataOf entries).foldl (fun acc curr => acc + curr.feeTransferEth) 0)
    ((feeDataOf entries).length : ℚ)

/-- Embedding of `fetchCryptoStats`: filters, averages, formats, and writes
the average-fee cell; its `catch` writes the error placeholder and logs. -/
def fetchCryptoStats (fmt : Fmt) (response : Except JsError (List FeeEntry)) : CycleResult :=
  match response with
  | .error _ => ⟨[.setAverageFee errText], true, none⟩
  | .ok entries =>
    ⟨[.setAverageFee (fmt statsBoxCurrencyOptions (feeAverageOf entries))], false, none⟩

/-- The three display-stat cells of the page. -/
structure DisplayStats where
  tvl : String
  percentChangeL2 : String
  averageFee : String
deriving DecidableEq, Repr

/-- Initial state: each cell holds the loading placeholder. -/
def initialStats : DisplayStats :=
  ⟨loadingText, loadingText, loadingText⟩

/-- Effect of one setter call on the cells. -/
def applyWrite (s : DisplayStats) : Write → DisplayStats
  | .setTVL v => { s with tvl := v }
  | .setL2PercentChange v => { s with percentChangeL2 := v }
  | .setAverageFee v => { s with averageFee := v }

/-- Effect of a list of setter calls, performed in order. -/
def applyWrites (s : DisplayStats) (ws : List Write) : DisplayStats :=
  ws.foldl applyWrite s

/-- Number of setter calls in a trace that target a given cell. -/
def countWrites (c : Cell) (ws : List Write) : ℕ :=
  (ws.filter (fun w => w.cell == c)).length

/-- Values written to a given cell by a trace, in order. -/
def valuesWritten (c : Cell) (ws : List Write) : List String :=
  (ws.filter (fun w => w.cell == c)).map Write.value

/-- Completion of one in-flight routine: the effect cycle (one per
`useEffect` run, i.e. per locale) it belongs to, and its result.  The
source installs no cleanup and checks no generation token, so applying a
completion replays its writes unconditionally. -/
structure Completion where
  cycle : ℕ
  result : CycleResult

/-- The state after a sequence of completions, in completion order. -/
def runCompletions (s : DisplayStats) (events : List Completion) : DisplayStats :=
  events.foldl (fun st e => applyWrites st e.result.writes) s

/-- Value of the last point of a series (element `[1]` of
`d[d.length - 1]`), the `v_last` of the specification. -/
def vLastOf (d : List Point) : ℚ :=
  elem1 ((d.get? (d.length - 1)).getD ptDefault)

/-- Value 30 points back from the last (element `[1]` of
`d[d.length - 31]`), the `v_prior` of the specification. -/
def vPriorOf (d : List Point) : ℚ :=
  elem1 ((d.get? (d.length - 31)).getD ptDefault)

/-- The percent-change string exactly as the source builds it on the
success path: the `toFixed(2)` rendering of
`((last - prior) / prior) * 100`, with a plus sign prefixed when the
JavaScript comparison `percentage > 0` holds, and a percent suffix. -/
def pcStringOf (d : List Point) : String :=
  let percentage := jsMulC (jsDiv (vLastOf d - vPriorOf d) (vPriorOf d)) 100
  if jsGtZero percentage then "+" ++ jsToFixed2 percentage ++ "%"
  else jsToFixed2 percentage ++ "%"

/-- Percent change as the specification words it: with `v_last` the last
point's value and `v_prior` the value 30 points back,
`(v_last - v_prior) / v_prior * 100`. -/
def specPercentChange (d : List Point) : ℚ :=
  (vLastOf d - vPriorOf d) / vPriorOf d * 100

/-- Percent-change string as the specification words it: the value rendered
to two decimal places, a leading plus sign exactly when strictly positive,
and a trailing percent sign. -/
def specPercentString (d : List Point) : String :=
  (if 0 < specPercentChange d then "+" else "") ++ toFixed2 (specPercentChange d) ++ "%"

/-- JavaScript `indexOf` on a list of strings: first index of the needle,
or `-1` when absent. -/
def jsIndexOf (x : String) : List String → ℤ
  | [] => -1
  | y :: ys =>
    if y = x then 0
    else if jsIndexOf x ys = -1 then -1 else jsIndexOf x ys + 1

/-- JavaScript truthiness of an `indexOf` result (an integer is falsy
exactly when it is `0`; note `-1` is truthy). -/
def jsTruthy (n : ℤ) : Bool := !(n == 0)

/-- A product-card entry, keeping the field the filters read. -/
structure L2Product where
  purpose : List String
deriving DecidableEq, Repr

/-- Filter of the generalized section:
`(l2) => !l2.purpose.indexOf("universal")`. -/
def generalizedFilter (l2 : L2Product) : Bool :=
  !(jsTruthy (jsIndexOf "universal" l2.purpose))

/-- Filter of the application-specific section:
`(l2) => l2.purpose.indexOf("universal")`, coerced to a boolean. -/
def appSpecificFilter (l2 : L2Product) : Bool :=
  jsTruthy (jsIndexOf "universal" l2.purpose)

/-- A constant formatter instance, used to evaluate the embedding on closed
inputs where the formatted text itself does not matter. -/
def constFormat : Fmt := fun _ _ => "$1.0M"

/-- A formatter instance that renders `NaN` the way `Intl.NumberFormat`
does (a currency-prefixed `NaN` text), used to exhibit a `NaN` average. -/
def nanFormat : Fmt := fun _ n =>
  match n with
  | .nan => "$NaN"
  | _ => "$0.00"

/-- A one-point series: shorter than the 31-point lookback window but
non-empty. -/
def onePointSeries : List Point := [("2022-01-01", 5, 0)]

/-- A 31-point constant series, long enough for the lookback window. -/
def series31 : List Point := List.replicate 31 ("2022-01-01", 100, 0)

/-- A 31-point series whose first value is 100 and whose remaining thirty
values are 50, so the 30-day percent change is -50. -/
def dropSeries : List Point := ("2022-01-01", 100, 0) :: List.replicate 30 ("2022-01-02", 50, 0)

/-- The fee entries of the specification's worked example. -/
def exampleFeeEntries : List FeeEntry :=
  [⟨"a", 1⟩, ⟨"hermez", 100⟩, ⟨"b", 3⟩]

/-- A 31-point series whose 30-points-back value is zero: the percent-change
division is a JavaScript division by zero. -/
def zeroPriorSeries : List Point :=
  ("2022-01-01", 0, 0) :: List.replicate 30 ("2022-01-02", 100, 0)

theorem String.empty_append_eq (s : String) : "" ++ s = s := by
  obtain ⟨data⟩ := s
  rfl

theorem getIdx_of_nonneg {d : List Point} {i : ℤ} (h : 0 ≤ i) :
    getIdx d i = d.get? i.toNat := if_pos h

theorem getIdx_of_neg {d : List Point} {i : ℤ} (h : i < 0) : getIdx d i = none :=
  if_neg (by omega)

theorem getIdx_toNat_sub (d : List Point) (i : ℤ) (k : ℕ) (h0 : 0 ≤ i)
    (h : i.toNat = k) : getIdx d i = d.get? k := by
  rw [getIdx_of_nonneg h0, h]

theorem jsDiv_of_ne_zero {n d : ℚ} (h : d ≠ 0) : jsDiv n d = .finite (n / d) := by
  rw [jsDiv, if_neg h]

theorem jsMulC_finite (q c : ℚ) : jsMulC (.finite q) c = .finite (q * c) := rfl

theorem jsGtZero_finite (q : ℚ) : jsGtZero (.finite q) = decide (0 < q) := rfl

theorem l2TryBlock_nil (fmt : Fmt) : l2TryBlock fmt [] = ([], some .typeError) := rfl

theorem l2TryBlock_short (fmt : Fmt) {d : List Point} (h1 : 1 ≤ d.length)
    (h2 : d.length < 31) :
    l2TryBlock fmt d =
      ([.setTVL (fmt statsBoxCurrencyOptions (.finite (vLastOf d)))], some .typeError) := by
  have hlast : d.get? (d.length - 1) = some (d.get ⟨d.length - 1, by omega⟩) :=
    List.get?_eq_get (by omega)
  rw [l2TryBlock, getIdx_toNat_sub d _ (d.length - 1) (by omega) (by omega), hlast,
    getIdx_of_neg (by omega)]
  rw [vLastOf, hlast]
  rfl

theorem l2TryBlock_long (fmt : Fmt) {d : List Point} (h : 31 ≤ d.length) :
    l2TryBlock fmt d =
      ([.setTVL (fmt statsBoxCurrencyOptions (.finite (vLastOf d))),
        .setL2PercentChange (pcStringOf d)], none) := by
  have hlast : d.get? (d.length - 1) = some (d.get ⟨d.length - 1, by omega⟩) :=
    List.get?_eq_get (by omega)
  have hprior : d.get? (d.length - 31) = some (d.get ⟨d.length - 31, by omega⟩) :=
    List.get?_eq_get (by omega)
  rw [l2TryBlock, getIdx_toNat_sub d _ (d.length - 1) (by omega) (by omega), hlast,
    getIdx_toNat_sub d _ (d.length - 31) (by omega) (by omega), hprior]
  rw [vLastOf, hlast, pcStringOf, vLastOf, hlast, vPriorOf, hprior]
  rfl

theorem fetchL2Beat_error (fmt : Fmt) (e : JsError) :
    fetchL2Beat fmt (.error e) =
      ⟨[.setTVL errText, .setL2PercentChange errText], true, none⟩ := rfl

theorem fetchL2Beat_ok_nil (fmt : Fmt) :
    fetchL2Beat fmt (.ok []) =
      ⟨[.setTVL errText, .setL2PercentChange errText], true, none⟩ := rfl

theorem fetchL2Beat_ok_short (fmt : Fmt) {d : List Point} (h1 : 1 ≤ d.length)
    (h2 : d.length < 31) :
    fetchL2Beat fmt (.ok d) =
      ⟨[.setTVL (fmt statsBoxCurrencyOptions (.finite (vLastOf d))),
        .setTVL errText, .setL2PercentChange errText], true, none⟩ := by
  rw [fetchL2Beat, l2TryBlock_short fmt h1 h2]
  rfl

theorem fetchL2Beat_ok_long (fmt : Fmt) {d : List Point} (h : 31 ≤ d.length) :
    fetchL2Beat fmt (.ok d) =
      ⟨[.setTVL (fmt statsBoxCurrencyOptions (.finite (vLastOf d))),
        .setL2PercentChange (pcStringOf d)], false, none⟩ := by
  rw [fetchL2Beat, l2TryBlock_long fmt h]

theorem digitChar_isDigit {k : ℕ} (h : k < 10) : (Nat.digitChar k).isDigit = true := by
  interval_cases k <;> decide

theorem decDigitsAux_isDigit : ∀ (n : ℕ) (acc : List Char),
    (∀ c ∈ acc, c.isDigit = true) → ∀ c ∈ decDigitsAux n acc, c.isDigit = true := by
  intro n
  induction n using Nat.strong_induction_on with
  | _ n ih =>
    match n with
    | 0 =>
      intro acc hacc c hc
      rw [decDigitsAux] at hc
      exact hacc c hc
    | m + 1 =>
      intro acc hacc c hc
      rw [decDigitsAux] at hc
      refine ih ((m + 1) / 10) (Nat.div_lt_self (Nat.succ_pos m) (by norm_num)) _ ?_ c hc
      intro c' hc'
      rcases List.mem_cons.mp hc' with h1 | h1
      · subst h1
        exact digitChar_isDigit (Nat.mod_lt _ (by norm_num))
      · exact hacc c' h1

theorem decDigitsAux_length : ∀ (n : ℕ) (acc : List Char),
    acc.length ≤ (decDigitsAux n acc).length := by
  intro n
  induction n using Nat.strong_induction_on with
  | _ n ih =>
    match n with
    | 0 =>
      intro acc
      rw [decDigitsAux]
    | m + 1 =>
      intro acc
      rw [decDigitsAux]
      calc acc.length
          ≤ (Nat.digitChar ((m + 1) % 10) :: acc).length := by simp
        _ ≤ _ := ih ((m + 1) / 10) (Nat.div_lt_self (Nat.succ_pos m) (by norm_num)) _

theorem decRepr_isDigit (n : ℕ) : ∀ c ∈ (decRepr n).data, c.isDigit = true := by
  intro c hc
  rw [decRepr] at hc
  by_cases hn : n = 0
  · rw [if_pos hn] at hc
    rcases List.mem_singleton.mp hc with rfl
    decide
  · rw [if_neg hn] at hc
    exact decDigitsAux_isDigit n [] (by simp) c hc

theorem decRepr_ne_nil (n : ℕ) : (decRepr n).data ≠ [] := by
  rw [decRepr]
  by_cases hn : n = 0
  · rw [if_pos hn]
    decide
  · rw [if_neg hn]
    obtain ⟨m, rfl⟩ := Nat.exists_eq_succ_of_ne_zero hn
    intro h
    have hlen := decDigitsAux_length ((m + 1) / 10) [Nat.digitChar ((m + 1) % 10)]
    have hstep : decDigitsAux (m + 1) [] =
        decDigitsAux ((m + 1) / 10) [Nat.digitChar ((m + 1) % 10)] := by
      rw [decDigitsAux]
    have hdata : (String.mk (decDigitsAux (m + 1) [])).data = decDigitsAux (m + 1) [] := rfl
    rw [hdata, hstep] at h
    rw [h] at hlen
    simp at hlen

theorem toFixed2_data (q : ℚ) :
    (toFixed2 q).data =
      (if q < 0 then ['-'] else []) ++ ((decRepr (fix2 q / 100)).data
        ++ '.' :: Nat.digitChar (fix2 q % 100 / 10) :: [Nat.digitChar (fix2 q % 100 % 10)]) := by
  rw [toFixed2]
  by_cases hq : q < 0 <;>
    simp [hq, String.data_append, twoFrac]

theorem isDigit_ne_plus {c : Char} (h : c.isDigit = true) : c ≠ '+' := by
  rintro rfl
  exact absurd h (by decide)

theorem isDigit_ne_dot {c : Char} (h : c.isDigit = true) : c ≠ '.' := by
  rintro rfl
  exact absurd h (by decide)

theorem isDigit_ne_percent {c : Char} (h : c.isDigit = true) : c ≠ '%' := by
  rintro rfl
  exact absurd h (by decide)

theorem toFixed2_head_ne_plus (q : ℚ) (c : Char)
    (h : (toFixed2 q).data.head? = some c) : c ≠ '+' := by
  rw [toFixed2_data] at h
  by_cases hq : q < 0
  · rw [if_pos hq] at h
    simp at h
    rw [← h]
    decide
  · rw [if_neg hq] at h
    rw [List.nil_append] at h
    cases hd : (decRepr (fix2 q / 100)).data with
    | nil => exact absurd hd (decRepr_ne_nil _)
    | cons c0 cs =>
      rw [hd, List.cons_append, List.head?_cons] at h
      rcases Option.some.inj h with rfl
      exact isDigit_ne_plus (decRepr_isDigit _ c0 (by rw [hd]; exact List.mem_cons_self _ _))

theorem toFixed2_data_ne_nil (q : ℚ) : (toFixed2 q).data ≠ [] := by
  rw [toFixed2_data]
  intro h
  rcases List.append_eq_nil.mp h with ⟨h1, h2⟩
  rcases List.append_eq_nil.mp h2 with ⟨h3, h4⟩
  simp at h4

theorem specPercentString_data (d : List Point) :
    (specPercentString d).data =
      (if 0 < specPercentChange d then ['+'] else [])
        ++ (toFixed2 (specPercentChange d)).data ++ ['%'] := by
  rw [specPercentString]
  by_cases h : 0 < specPercentChange d <;>
    simp [h, String.data_append]

theorem pcStringOf_eq_spec (d : List Point) (hp : vPriorOf d ≠ 0) :
    pcStringOf d = specPercentString d := by
  simp only [pcStringOf, specPercentString, specPercentChange]
  rw [jsDiv_of_ne_zero hp, jsMulC_finite, jsGtZero_finite]
  by_cases h : 0 < (vLastOf d - vPriorOf d) / vPriorOf d * 100
  · rw [if_pos (by simpa using h), if_pos h]
    rfl
  · rw [if_neg (by simpa using h), if_neg h]
    rw [String.empty_append_eq]
    rfl

/-- C4: for every time series of length at least 31 whose 30-points-back
value is nonzero, the percent-change string written by `fetchL2Beat` equals
`(v_last - v_prior) / v_prior * 100` rendered by `toFixed(2)`, carries a
leading plus sign exactly when the value is strictly positive, and consists
of an optional sign, an integer part, a point, exactly two fraction digits
and a trailing percent sign. -/
theorem percentChange_spec (fmt : Fmt) (d : List Point)
    (h31 : 31 ≤ d.length) (hprior : vPriorOf d ≠ 0) :
    (fetchL2Beat fmt (.ok d)).writes =
      [.setTVL (fmt statsBoxCurrencyOptions (.finite (vLastOf d))),
       .setL2PercentChange (specPercentString d)]
    ∧ specPercentString d =
        (if 0 < specPercentChange d then "+" else "")
          ++ toFixed2 (specPercentChange d) ++ "%"
    ∧ ((specPercentString d).data.head? = some '+' ↔ 0 < specPercentChange d)
    ∧ ∃ pre d1 d2, (specPercentString d).data = pre ++ '.' :: d1 :: d2 :: ['%']
        ∧ d1.isDigit = true ∧ d2.isDigit = true ∧ '.' ∉ pre ∧ '%' ∉ pre := by
  refine ⟨?_, rfl, ?_, ?_⟩
  · rw [fetchL2Beat_ok_long fmt h31, pcStringOf_eq_spec d hprior]
  · rw [specPercentString_data]
    by_cases h : 0 < specPercentChange d
    · rw [if_pos h]
      simp [h]
    · rw [if_neg h, List.nil_append]
      constructor
      · intro hc
        exfalso
        cases hd : (toFixed2 (specPercentChange d)).data with
        | nil => exact absurd hd (toFixed2_data_ne_nil _)
        | cons c0 cs =>
          rw [hd, List.cons_append, List.head?_cons] at hc
          have hc0 : c0 = '+' := Option.some.inj hc
          exact toFixed2_head_ne_plus _ c0 (by rw [hd, List.head?_cons]) (by rw [hc0])
      · intro h0
        exact absurd h0 h
  · refine ⟨(if 0 < specPercentChange d then ['+'] else [])
        ++ ((if specPercentChange d < 0 then ['-'] else [])
          ++ (decRepr (fix2 (specPercentChange d) / 100)).data),
      Nat.digitChar (fix2 (specPercentChange d) % 100 / 10),
      Nat.digitChar (fix2 (specPercentChange d) % 100 % 10), ?_, ?_, ?_, ?_, ?_⟩
    · rw [specPercentString_data, toFixed2_data]
      simp [List.append_assoc]
    · exact digitChar_isDigit (by omega)
    · exact digitChar_isDigit (by omega)
    · intro hmem
      rcases List.mem_append.mp hmem with h1 | h2
      · revert h1
        split <;> simp
      · rcases List.mem_append.mp h2 with h3 | h4
        · revert h3
          split <;> simp
        · exact absurd (decRepr_isDigit _ _ h4) (by decide)
    · intro hmem
      rcases List.mem_append.mp hmem with h1 | h2
      · revert h1
        split <;> simp
      · rcases List.mem_append.mp h2 with h3 | h4
        · revert h3
          split <;> simp
        · exact absurd (decRepr_isDigit _ _ h4) (by decide)

/-- Witness for `percentChange_spec`: the 31-point series whose value drops
from 100 to 50 satisfies both hypotheses, and the theorem applies to it. -/
theorem percentChange_spec_witness :
    (31 ≤ dropSeries.length ∧ vPriorOf dropSeries ≠ 0)
    ∧ ((fetchL2Beat constFormat (.ok dropSeries)).writes =
        [.setTVL (constFormat statsBoxCurrencyOptions (.finite (vLastOf dropSeries))),
         .setL2PercentChange (specPercentString dropSeries)]
      ∧ specPercentString dropSeries =
          (if 0 < specPercentChange dropSeries then "+" else "")
            ++ toFixed2 (specPercentChange dropSeries) ++ "%"
      ∧ ((specPercentString dropSeries).data.head? = some '+'
          ↔ 0 < specPercentChange dropSeries)
      ∧ ∃ pre d1 d2, (specPercentString dropSeries).data = pre ++ '.' :: d1 :: d2 :: ['%']
          ∧ d1.isDigit = true ∧ d2.isDigit = true ∧ '.' ∉ pre ∧ '%' ∉ pre) :=
  ⟨⟨by simp [dropSeries], by norm_num [vPriorOf, dropSeries, elem1, ptDefault]⟩,
    percentChange_spec constFormat dropSeries (by simp [dropSeries])
      (by norm_num [vPriorOf, dropSeries, elem1, ptDefault])⟩

/-- C4 counterexample: on a 31-point series whose 30-points-back value is
zero, the code divides by zero and writes "+Infinity%", which has no
decimal point at all, so the percent-change output is not rendered with
exactly two decimal places for every series of length at least 31. -/
theorem percentChange_zero_prior_counterexample :
    31 ≤ zeroPriorSeries.length
    ∧ vPriorOf zeroPriorSeries = 0
    ∧ (fetchL2Beat constFormat (.ok zeroPriorSeries)).writes =
        [.setTVL (constFormat statsBoxCurrencyOptions (.finite (vLastOf zeroPriorSeries))),
         .setL2PercentChange "+Infinity%"]
    ∧ '.' ∉ ("+Infinity%").data := by
  have hlen : 31 ≤ zeroPriorSeries.length := by simp [zeroPriorSeries]
  have hprior : vPriorOf zeroPriorSeries = 0 := by
    simp [vPriorOf, zeroPriorSeries, elem1]
  have hlast : vLastOf zeroPriorSeries = 100 := by
    simp [vLastOf, zeroPriorSeries, elem1]
  have hpc : pcStringOf zeroPriorSeries = "+Infinity%" := by
    simp only [pcStringOf, hprior, hlast]
    norm_num [jsDiv, jsMulC, jsGtZero, jsToFixed2]
    decide
  refine ⟨hlen, hprior, ?_, by decide⟩
  rw [fetchL2Beat_ok_long constFormat hlen, hpc]

/-- C5: whenever the TVL/percent-change cycle fails (rejected fetch, or any
series shorter than 31 points, the only throw sites), both cells end at the
fixed error text, the cause is logged, and no exception escapes the catch. -/
theorem l2beat_failure_error_contract (fmt : Fmt) (r : Except JsError (List Point))
    (hfail : ∀ d, r = .ok d → d.length < 31) :
    (applyWrites initialStats (fetchL2Beat fmt r).writes).tvl = errText
    ∧ (applyWrites initialStats (fetchL2Beat fmt r).writes).percentChangeL2 = errText
    ∧ (fetchL2Beat fmt r).logged = true
    ∧ (fetchL2Beat fmt r).escaped = none := by
  match r with
  | .error e => exact ⟨rfl, rfl, rfl, rfl⟩
  | .ok d =>
    have hlen := hfail d rfl
    rcases Nat.eq_zero_or_pos d.length with h0 | h1
    · obtain rfl := List.length_eq_zero.mp h0
      exact ⟨rfl, rfl, rfl, rfl⟩
    · rw [fetchL2Beat_ok_short fmt h1 hlen]
      exact ⟨rfl, rfl, rfl, rfl⟩

/-- Witness for `l2beat_failure_error_contract`: a rejected fetch. -/
theorem l2beat_failure_error_contract_witness :
    (∀ d : List Point,
        (Except.error JsError.fetchError : Except JsError (List Point)) = .ok d
          → d.length < 31)
    ∧ ((applyWrites initialStats
          (fetchL2Beat constFormat (.error .fetchError)).writes).tvl = errText
      ∧ (applyWrites initialStats
          (fetchL2Beat constFormat (.error .fetchError)).writes).percentChangeL2 = errText
      ∧ (fetchL2Beat constFormat (.error .fetchError)).logged = true
      ∧ (fetchL2Beat constFormat (.error .fetchError)).escaped = none) :=
  ⟨(fun _ h => nomatch h),
    l2beat_failure_error_contract constFormat (.error .fetchError) (fun _ h => nomatch h)⟩

/-- C6 counterexample: on a one-point series the tvl cell is written twice
within one cycle, first with the formatted last value and then with the
error placeholder, refuting the claim that every cell is mutated exactly
once and never receives both kinds of value. -/
theorem tvl_double_write_counterexample :
    countWrites .tvl (fetchL2Beat constFormat (.ok onePointSeries)).writes = 2
    ∧ valuesWritten .tvl (fetchL2Beat constFormat (.ok onePointSeries)).writes
        = [constFormat statsBoxCurrencyOptions (.finite (vLastOf onePointSeries)), errText]
    ∧ constFormat statsBoxCurrencyOptions (.finite (vLastOf onePointSeries)) ≠ errText := by
  refine ⟨rfl, rfl, by decide⟩

/-- C6 amended: each cell starts at the loading placeholder; the average-fee
cell is written exactly once per cycle and the percent-change cell exactly
once, but the tvl cell is written twice (formatted value, then error text)
exactly when the series is non-empty and shorter than 31 points, and once
otherwise. -/
theorem writes_per_cycle_characterization (fmt : Fmt)
    (rL2 : Except JsError (List Point)) (rFee : Except JsError (List FeeEntry)) :
    initialStats.tvl = loadingText
    ∧ initialStats.percentChangeL2 = loadingText
    ∧ initialStats.averageFee = loadingText
    ∧ countWrites .averageFee (fetchCryptoStats fmt rFee).writes = 1
    ∧ countWrites .tvl (fetchCryptoStats fmt rFee).writes = 0
    ∧ countWrites .percentChangeL2 (fetchCryptoStats fmt rFee).writes = 0
    ∧ countWrites .percentChangeL2 (fetchL2Beat fmt rL2).writes = 1
    ∧ countWrites .averageFee (fetchL2Beat fmt rL2).writes = 0
    ∧ countWrites .tvl (fetchL2Beat fmt rL2).writes =
        (match rL2 with
          | .error _ => 1
          | .ok d => if d.length = 0 ∨ 31 ≤ d.length then 1 else 2) := by
  have hfee : countWrites .averageFee (fetchCryptoStats fmt rFee).writes = 1
      ∧ countWrites .tvl (fetchCryptoStats fmt rFee).writes = 0
      ∧ countWrites .percentChangeL2 (fetchCryptoStats fmt rFee).writes = 0 := by
    cases rFee <;> exact ⟨rfl, rfl, rfl⟩
  have hl2 : countWrites .percentChangeL2 (fetchL2Beat fmt rL2).writes = 1
      ∧ countWrites .averageFee (fetchL2Beat fmt rL2).writes = 0
      ∧ countWrites .tvl (fetchL2Beat fmt rL2).writes =
          (match rL2 with
            | .error _ => 1
            | .ok d => if d.length = 0 ∨ 31 ≤ d.length then 1 else 2) := by
    match rL2 with
    | .error e => exact ⟨rfl, rfl, rfl⟩
    | .ok d =>
      rcases Nat.lt_or_ge d.length 31 with hlt | hge
      · rcases Nat.eq_zero_or_pos d.length with h0 | h1
        · obtain rfl := List.length_eq_zero.mp h0
          refine ⟨rfl, rfl, ?_⟩
          show countWrites .tvl (fetchL2Beat fmt (.ok [])).writes =
            if ([] : List Point).length = 0 ∨ 31 ≤ ([] : List Point).length then 1 else 2
          rw [if_pos (Or.inl List.length_nil)]
          rfl
        · rw [fetchL2Beat_ok_short fmt h1 hlt]
          refine ⟨rfl, rfl, ?_⟩
          show countWrites .tvl
              [.setTVL (fmt statsBoxCurrencyOptions (.finite (vLastOf d))),
               .setTVL errText, .setL2PercentChange errText] =
            if d.length = 0 ∨ 31 ≤ d.length then 1 else 2
          rw [if_neg (by omega)]
          rfl
      · rw [fetchL2Beat_ok_long fmt hge]
        refine ⟨rfl, rfl, ?_⟩
        show countWrites .tvl
            [.setTVL (fmt statsBoxCurrencyOptions (.finite (vLastOf d))),
             .setL2PercentChange (pcStringOf d)] =
          if d.length = 0 ∨ 31 ≤ d.length then 1 else 2
        rw [if_pos (Or.inr hge)]
        rfl
  exact ⟨rfl, rfl, rfl, hfee.1, hfee.2.1, hfee.2.2, hl2.1, hl2.2.1, hl2.2.2⟩

theorem foldl_add_feeTransferEth (l : List FeeEntry) (q : ℚ) :
    l.foldl (fun acc curr => acc + curr.feeTransferEth) q
      = q + (l.map FeeEntry.feeTransferEth).sum := by
  induction l generalizing q with
  | nil => simp
  | cons hd tl ih => simp [ih, add_assoc]

/-- C7: the fee derivation keeps exactly the entries whose id differs from
the excluded identifier and averages their fee field; on the worked example
the average is 2. -/
theorem feeAverage_mean_spec (entries : List FeeEntry)
    (h : feeDataOf entries ≠ []) :
    (∀ e : FeeEntry, e ∈ feeDataOf entries ↔ e ∈ entries ∧ e.id ≠ "hermez")
    ∧ feeAverageOf entries =
        .finite (((feeDataOf entries).map FeeEntry.feeTransferEth).sum
          / ((feeDataOf entries).length : ℚ))
    ∧ feeAverageOf exampleFeeEntries = .finite 2 := by
  refine ⟨?_, ?_, ?_⟩
  · intro e
    rw [feeDataOf, List.mem_filter]
    simp [bne]
  · rw [feeAverageOf, foldl_add_feeTransferEth, zero_add]
    have hne : (feeDataOf entries).length ≠ 0 := by
      intro hlen
      exact h (List.length_eq_zero.mp hlen)
    exact jsDiv_of_ne_zero (Nat.cast_ne_zero.mpr hne)
  · have hfd : feeDataOf exampleFeeEntries = [⟨"a", 1⟩, ⟨"b", 3⟩] := rfl
    rw [feeAverageOf, hfd, foldl_add_feeTransferEth, zero_add,
      jsDiv_of_ne_zero (by norm_num)]
    norm_num

/-- Witness for `feeAverage_mean_spec`: the worked-example entries have a
non-empty filtered remainder, and the theorem applies to them. -/
theorem feeAverage_mean_spec_witness :
    feeDataOf exampleFeeEntries ≠ []
    ∧ ((∀ e : FeeEntry, e ∈ feeDataOf exampleFeeEntries
          ↔ e ∈ exampleFeeEntries ∧ e.id ≠ "hermez")
      ∧ feeAverageOf exampleFeeEntries =
          .finite (((feeDataOf exampleFeeEntries).map FeeEntry.feeTransferEth).sum
            / ((feeDataOf exampleFeeEntries).length : ℚ))
      ∧ feeAverageOf exampleFeeEntries = .finite 2) :=
  ⟨by decide, feeAverage_mean_spec exampleFeeEntries (by decide)⟩

/-- C2 (code behavior at the failing input): when filtering removes every
entry, the average is `0 / 0 = NaN`; the `NaN` is formatted and written to
the average-fee cell with no error raised and nothing logged. -/
theorem emptyFilter_nan_eval :
    feeDataOf [⟨"hermez", 100⟩] = []
    ∧ feeAverageOf [⟨"hermez", 100⟩] = .nan
    ∧ fetchCryptoStats nanFormat (.ok [⟨"hermez", 100⟩])
        = ⟨[.setAverageFee "$NaN"], false, none⟩ := by
  have h1 : feeDataOf [(⟨"hermez", 100⟩ : FeeEntry)] = [] := rfl
  have h2 : feeAverageOf [(⟨"hermez", 100⟩ : FeeEntry)] = .nan := by
    rw [feeAverageOf, h1]
    norm_num [jsDiv]
  have h3 : fetchCryptoStats nanFormat (.ok [(⟨"hermez", 100⟩ : FeeEntry)]) =
      ⟨[.setAverageFee
          (nanFormat statsBoxCurrencyOptions (feeAverageOf [⟨"hermez", 100⟩]))],
        false, none⟩ := rfl
  refine ⟨h1, h2, ?_⟩
  rw [h3, h2]
  rfl

/-- C1 (code behavior at the failing input): on a one-point series the code
reads index `length - 31 = -30`, which is out of range (`undefined`); the
resulting TypeError is caught by the generic handler, which logs and sets
both cells to the generic error text after the formatted TVL was already
written; no DataInsufficient-style typed error is raised. -/
theorem shortSeries_generic_error_eval :
    getIdx onePointSeries ((onePointSeries.length : ℤ) - 31) = none
    ∧ fetchL2Beat constFormat (.ok onePointSeries) =
        ⟨[.setTVL "$1.0M", .setTVL errText, .setL2PercentChange errText], true, none⟩ :=
  ⟨rfl, rfl⟩

/-- C3 (code behavior at the failing interleaving): the newer cycle 2
completes first and writes its TVL; the superseded cycle 1 completes
afterwards and overwrites that value, because `useEffect` installs no
cleanup and the completions check no generation token. -/
theorem stale_cycle_overwrites_eval :
    (runCompletions initialStats
        [⟨2, fetchL2Beat constFormat (.ok series31)⟩]).tvl
      = constFormat statsBoxCurrencyOptions (.finite (vLastOf series31))
    ∧ (runCompletions initialStats
        [⟨2, fetchL2Beat constFormat (.ok series31)⟩,
         ⟨1, fetchL2Beat constFormat (.error .fetchError)⟩]).tvl = errText
    ∧ errText ≠ constFormat statsBoxCurrencyOptions (.finite (vLastOf series31)) := by
  refine ⟨rfl, rfl, by decide⟩

/-- C8 counterexample: for the non-empty one-point series the tvl cell ends
the cycle holding the error text, not the formatted value of the last
point, refuting the claim for arbitrary non-empty series. -/
theorem tvl_short_series_counterexample :
    1 ≤ onePointSeries.length
    ∧ (applyWrites initialStats
        (fetchL2Beat constFormat (.ok onePointSeries)).writes).tvl = errText
    ∧ errText ≠ constFormat statsBoxCurrencyOptions (.finite (vLastOf onePointSeries)) :=
  ⟨by decide, rfl, by decide⟩

/-- C8 amended: for every series of length at least 31 the tvl cell ends the
cycle holding the value of the last point formatted with the compact USD
currency options (2 to 3 significant digits). -/
theorem tvl_formatted_of_long (fmt : Fmt) (d : List Point) (h : 31 ≤ d.length) :
    (applyWrites initialStats (fetchL2Beat fmt (.ok d)).writes).tvl
      = fmt statsBoxCurrencyOptions (.finite (vLastOf d))
    ∧ statsBoxCurrencyOptions =
        ⟨"currency", "USD", "compact", 2, 3⟩ := by
  rw [fetchL2Beat_ok_long fmt h]
  exact ⟨rfl, rfl⟩

/-- Witness for `tvl_formatted_of_long`: the 31-point constant series. -/
theorem tvl_formatted_of_long_witness :
    31 ≤ series31.length
    ∧ ((applyWrites initialStats (fetchL2Beat constFormat (.ok series31)).writes).tvl
        = constFormat statsBoxCurrencyOptions (.finite (vLastOf series31))
      ∧ statsBoxCurrencyOptions = ⟨"currency", "USD", "compact", 2, 3⟩) :=
  ⟨by simp [series31], tvl_formatted_of_long constFormat series31 (by simp [series31])⟩

/-- C9: in every execution and on every outcome, `fetchCryptoStats` writes
only the average-fee cell and `fetchL2Beat` writes only the tvl and
percent-change cells, so each routine leaves the other's cells unchanged. -/
theorem fetch_frame_separation (fmtA fmtB : Fmt) (rL2 : Except JsError (List Point))
    (rFee : Except JsError (List FeeEntry)) (s : DisplayStats) :
    (∀ w ∈ (fetchCryptoStats fmtA rFee).writes, w.cell = .averageFee)
    ∧ (applyWrites s (fetchCryptoStats fmtA rFee).writes).tvl = s.tvl
    ∧ (applyWrites s (fetchCryptoStats fmtA rFee).writes).percentChangeL2
        = s.percentChangeL2
    ∧ (∀ w ∈ (fetchL2Beat fmtB rL2).writes, w.cell = .tvl ∨ w.cell = .percentChangeL2)
    ∧ (applyWrites s (fetchL2Beat fmtB rL2).writes).averageFee = s.averageFee := by
  have hfee1 : ∀ w ∈ (fetchCryptoStats fmtA rFee).writes, w.cell = .averageFee := by
    cases rFee <;> simp [fetchCryptoStats, Write.cell]
  have hfee2 : (applyWrites s (fetchCryptoStats fmtA rFee).writes).tvl = s.tvl
      ∧ (applyWrites s (fetchCryptoStats fmtA rFee).writes).percentChangeL2
          = s.percentChangeL2 := by
    cases rFee <;> exact ⟨rfl, rfl⟩
  have hl2 : (∀ w ∈ (fetchL2Beat fmtB rL2).writes,
        w.cell = .tvl ∨ w.cell = .percentChangeL2)
      ∧ (applyWrites s (fetchL2Beat fmtB rL2).writes).averageFee = s.averageFee := by
    match rL2 with
    | .error e => exact ⟨by simp [fetchL2Beat_error, Write.cell], rfl⟩
    | .ok d =>
      rcases Nat.lt_or_ge d.length 31 with hlt | hge
      · rcases Nat.eq_zero_or_pos d.length with h0 | h1
        · obtain rfl := List.length_eq_zero.mp h0
          exact ⟨by simp [fetchL2Beat_ok_nil, Write.cell], rfl⟩
        · rw [fetchL2Beat_ok_short fmtB h1 hlt]
          exact ⟨by simp [Write.cell], rfl⟩
      · rw [fetchL2Beat_ok_long fmtB hge]
        exact ⟨by simp [Write.cell], rfl⟩
  exact ⟨hfee1, hfee2.1, hfee2.2, hl2.1, hl2.2⟩

theorem jsIndexOf_eq_zero_iff (x : String) (l : List String) :
    jsIndexOf x l = 0 ↔ l.head? = some x := by
  cases l with
  | nil => simp [jsIndexOf]
  | cons y ys =>
    rw [jsIndexOf, List.head?_cons]
    by_cases hy : y = x
    · simp [hy]
    · rw [if_neg hy]
      by_cases hr : jsIndexOf x ys = -1
      · rw [if_pos hr]
        constructor
        · intro h
          exact absurd h (by decide)
        · intro h
          exact absurd (Option.some.inj h) hy
      · rw [if_neg hr]
        constructor
        · intro h
          exact absurd (by omega : jsIndexOf x ys = -1) hr
        · intro h
          exact absurd (Option.some.inj h) hy

theorem length_filter_add_length_filter_not {α : Type} (f : α → Bool)
    (L : List α) :
    (L.filter f).length + (L.filter (fun x => !f x)).length = L.length := by
  induction L with
  | nil => rfl
  | cons hd tl ih =>
    by_cases hf : f hd = true
    · simp [List.filter_cons, hf]
      omega
    · have hf' : f hd = false := by simpa using hf
      simp [List.filter_cons, hf']
      omega

/-- C10: the two product-card filters are complementary, so every entry
falls in exactly one of the two sections, and an entry is in the
generalized section exactly when "universal" is the first element of its
purpose list — merely containing "universal" later does not qualify. -/
theorem product_sections_partition :
    (∀ p : L2Product, appSpecificFilter p = !generalizedFilter p)
    ∧ (∀ p : L2Product,
        generalizedFilter p = true ↔ p.purpose.head? = some "universal")
    ∧ (∀ L : List L2Product,
        (L.filter generalizedFilter).length + (L.filter appSpecificFilter).length
          = L.length)
    ∧ (∀ (L : List L2Product) (p : L2Product), p ∈ L →
        (p ∈ L.filter generalizedFilter ↔ p ∉ L.filter appSpecificFilter))
    ∧ generalizedFilter ⟨["rollup", "universal"]⟩ = false := by
  have hcompl : ∀ p : L2Product, appSpecificFilter p = !generalizedFilter p := by
    intro p
    simp [appSpecificFilter, generalizedFilter]
  refine ⟨hcompl, ?_, ?_, ?_, by decide⟩
  · intro p
    rw [generalizedFilter, jsTruthy, Bool.not_not, beq_iff_eq]
    exact jsIndexOf_eq_zero_iff _ _
  · intro L
    have hL : L.filter appSpecificFilter = L.filter (fun x => !generalizedFilter x) :=
      List.filter_congr (fun x _ => by rw [hcompl x])
    rw [hL]
    exact length_filter_add_length_filter_not generalizedFilter L
  · intro L p hp
    rw [List.mem_filter, List.mem_filter]
    constructor
    · rintro ⟨-, hg⟩ ⟨-, ha⟩
      rw [hcompl p, hg] at ha
      exact absurd ha (by decide)
    · intro hnot
      refine ⟨hp, ?_⟩
      by_contra hg
      have hg' : generalizedFilter p = false := by
        cases h : generalizedFilter p
        · rfl
        · exact absurd h hg
      exact hnot ⟨hp, by rw [hcompl p, hg']; rfl⟩

end Layer2
